import Mathlib

/-!
Shallow embedding of the monistode CLI (`src/main.rs`): the `as` subcommand
(read a source file, parse it for the selected target, serialize the object
file) and the `link` subcommand (read and deserialize each input object file,
merge them left to right, build an executable, serialize it).  The external
crates (`monistode_assemblers`, `monistode_binutils`) and the filesystem are
modeled as an explicit environment of operations; the definitions below mirror
the control flow of `main.rs` exactly.
-/

set_option autoImplicit false

namespace MonistodeCli

/-- File system paths (`std::path::PathBuf`), modeled as strings. -/
abbrev Path := String

/-- Byte buffers (`Vec<u8>`); the CLI never inspects individual bytes, so we
model them as lists of naturals. -/
abbrev Bytes := List Nat

/-- The operations the CLI obtains from outside its own source: the filesystem
reads and the external crates.  `O` is the crates' `ObjectFile` type and `E`
their `Executable` type; the CLI treats both as opaque.

The `merge` field is Modelled from the spec: `ObjectFile::merge` lives in the
external `monistode_binutils` crate, not under `src/`; per the spec it is
`merge(self, other) -> Result<(), MergeError>`, mutating `self` in place.  We
model it as returning the updated `self` together with the optional
`MergeError` (rendered as a string). -/
structure Env (O E : Type) where
  /-- `fs::read_to_string`: the file's text, or an I/O error message. -/
  readToString : Path → Except String String
  /-- `monistode_assemblers::stack::parse`, with the error already rendered
  through its `Display` instance (the CLI applies `format!` to it). -/
  stackParse : String → Except String O
  /-- `fs::read`: the file's bytes, or an I/O error message. -/
  read : Path → Except String Bytes
  /-- `ObjectFile::deserialize`: remaining bytes paired with the value, or a
  decode error (rendered as a string, as the CLI only debug-prints it). -/
  deserialize : Bytes → Except String (Bytes × O)
  /-- Modelled from the spec: `ObjectFile::merge` (missing from `src/`),
  returning the updated accumulator and the optional `MergeError`. -/
  merge : O → O → O × Option String
  /-- `Executable::try_from`, or a `LinkError` rendered as a string. -/
  tryFrom : O → Except String E
  /-- `ObjectFile::serialize`. -/
  serializeObj : O → Bytes
  /-- `Executable::serialize`. -/
  serializeExe : E → Bytes

/-- Strip the extension from a file name component: drop everything from the
last dot on, unless the only dot is the leading character (a hidden file has
no extension).  Models the removal step of `PathBuf::set_extension`. -/
def stripExt (name : List Char) : List Char :=
  let rev := name.reverse
  if rev.contains '.' then
    let stem := ((rev.dropWhile (fun c => c ≠ '.')).drop 1).reverse
    if stem.isEmpty then name else stem
  else name

/-- `PathBuf::set_extension`: replace the extension of the final path
component with `ext`. -/
def setExtension (p : Path) (ext : String) : Path :=
  let cs := p.toList
  let baseLen := (cs.reverse.takeWhile (fun c => c ≠ '/')).length
  let dir := cs.take (cs.length - baseLen)
  let base := cs.drop (cs.length - baseLen)
  String.mk (dir ++ stripExt base ++ ('.' :: ext.toList))

/-- Result of `assemble_file` followed by the `As` arm of `main`: either the
CLI attempts to write `bytes` to `path`, or it prints an error and writes
nothing. -/
inductive AsOutcome where
  | write (path : Path) (bytes : Bytes)
  | failure (msg : String)
deriving DecidableEq, Repr

/-- `assemble_file` from `main.rs`: read the input file (prefixing read errors
with `Failed to read input file: `), then parse according to the target,
rejecting any target other than `stack`. -/
def assemble_file {O E : Type} (env : Env O E) (inputPath : Path) (target : String) :
    Except String O :=
  match env.readToString inputPath with
  | .error e => .error ("Failed to read input file: " ++ e)
  | .ok input =>
    if target = "stack" then env.stackParse input
    else .error ("Unsupported target type: " ++ target)

/-- The `As` arm of `main`: compute the output path (the given one, or the
input with extension `o`), assemble, and on success write the serialized
object file. -/
def asCommand {O E : Type} (env : Env O E) (input : Path) (output : Option Path)
    (target : String) : AsOutcome :=
  let outputPath := output.getD (setExtension input "o")
  match assemble_file env input target with
  | .ok objectFile => .write outputPath (env.serializeObj objectFile)
  | .error e => .failure e

/-- Outcome of the `Link` arm of `main`: the index panic from `input[0]` on an
empty input list, an early return after a read or deserialize failure on a
given file, a link failure, the `No input files provided` diagnostic, or an
attempted write of `bytes` to `path`. -/
inductive LinkOutcome where
  | indexPanic
  | readFail (path : Path) (msg : String)
  | deserializeFail (path : Path) (msg : String)
  | linkFail (msg : String)
  | noInput
  | write (path : Path) (bytes : Bytes)
deriving DecidableEq, Repr

/-- The read/deserialize/merge loop of the `Link` arm: fold over the input
paths, keeping the `merged_object: Option<ObjectFile>` accumulator; a read or
deserialize failure aborts with the corresponding outcome.  As in the source,
the remaining-bytes component of `deserialize` and the error component of
`merge` are discarded. -/
def processInputs {O E : Type} (env : Env O E) :
    List Path → Option O → Except LinkOutcome (Option O)
  | [], acc => .ok acc
  | path :: rest, acc =>
    match env.read path with
    | .error e => .error (.readFail path e)
    | .ok bytes =>
      match env.deserialize bytes with
      | .error e => .error (.deserializeFail path e)
      | .ok (_, objectFile) =>
        match acc with
        | some existing => processInputs env rest (some (env.merge existing objectFile).1)
        | none => processInputs env rest (some objectFile)

/-- The `Link` arm of `main`: compute the output path first (indexing
`input[0]` when no explicit output is given — a panic on an empty list), run
the merge loop, then build and serialize the executable. -/
def linkCommand {O E : Type} (env : Env O E) (input : List Path)
    (output : Option Path) : LinkOutcome :=
  let outputPath? : Option Path :=
    match output with
    | some p => some p
    | none => (input.get? 0).map (fun p => setExtension p "x")
  match outputPath? with
  | none => .indexPanic
  | some outputPath =>
    match processInputs env input none with
    | .error r => r
    | .ok none => .noInput
    | .ok (some objectFile) =>
      match env.tryFrom objectFile with
      | .ok executable => .write outputPath (env.serializeExe executable)
      | .error e => .linkFail e

/-- A path reads and deserializes successfully in the given environment. -/
def readsOk {O E : Type} (env : Env O E) (p : Path) : Prop :=
  ∃ b r o, env.read p = .ok b ∧ env.deserialize b = .ok (r, o)

/-- A path fails the loop: either its read fails, or its read succeeds and the
deserialization of its bytes fails. -/
def fileFails {O E : Type} (env : Env O E) (p : Path) : Prop :=
  (∃ e, env.read p = .error e) ∨
  (∃ b e, env.read p = .ok b ∧ env.deserialize b = .error e)

/-- A path reads and deserializes to the given object file. -/
def deserializesTo {O E : Type} (env : Env O E) (p : Path) (o : O) : Prop :=
  ∃ b r, env.read p = .ok b ∧ env.deserialize b = .ok (r, o)

/-- A concrete environment (object files and executables as naturals) used to
instantiate the theorems below on closed inputs. -/
def demoEnv : Env Nat Nat where
  readToString := fun _ => .ok "push 1"
  stackParse := fun s => .ok s.length
  read := fun _ => .ok [3, 1]
  deserialize := fun b => .ok ([], b.length)
  merge := fun a b => (a + b, none)
  tryFrom := fun o => .ok (o + 1)
  serializeObj := fun o => [o]
  serializeExe := fun e => [e]

/-- A variant of `demoEnv` whose merge always reports a duplicate-definition
error, as the crate does when both inputs define the same global symbol. -/
def demoDupEnv : Env Nat Nat :=
  { demoEnv with merge := fun a _ => (a, some "DuplicateDefinition(foo)") }

/-- A variant of `demoEnv` whose parser always fails. -/
def demoParseFailEnv : Env Nat Nat :=
  { demoEnv with stackParse := fun _ => .error "unknown mnemonic at line 1" }

/-- A variant of `demoEnv` whose executable building always fails. -/
def demoLinkFailEnv : Env Nat Nat :=
  { demoEnv with tryFrom := fun _ => .error "UndefinedSymbol(done)" }

/-- A variant of `demoEnv` whose read fails on the path `bad`. -/
def demoReadFailEnv : Env Nat Nat :=
  { demoEnv with read := fun p => if p = "bad" then .error "os error 2" else .ok [3, 1] }

/-- The accumulator update performed by one loop iteration on object file `o`:
merge into the existing accumulator (discarding the error component), or start
the accumulator. -/
def stepAcc {O E : Type} (env : Env O E) (acc : Option O) (o : O) : Option O :=
  match acc with
  | some existing => some (env.merge existing o).1
  | none => some o

theorem processInputs_cons_ok {O E : Type} (env : Env O E) {p : Path} {b r : Bytes} {o : O}
    (rest : List Path) (acc : Option O)
    (hb : env.read p = .ok b) (hd : env.deserialize b = .ok (r, o)) :
    processInputs env (p :: rest) acc = processInputs env rest (stepAcc env acc o) := by
  cases acc <;> simp [processInputs, hb, hd, stepAcc]

theorem processInputs_fold {O E : Type} (env : Env O E) {ps : List Path} {os : List O}
    (h : List.Forall₂ (deserializesTo env) ps os) (a : O) :
    processInputs env ps (some a) =
      .ok (some (os.foldl (fun x y => (env.merge x y).1) a)) := by
  induction h generalizing a with
  | nil => rfl
  | cons hpo _ ih =>
    obtain ⟨b, r, hb, hd⟩ := hpo
    rw [processInputs_cons_ok env _ _ hb hd]
    exact ih _

theorem processInputs_some_not_none {O E : Type} (env : Env O E) (ps : List Path) (a : O) :
    processInputs env ps (some a) ≠ .ok none := by
  induction ps generalizing a with
  | nil => simp [processInputs]
  | cons p rest ih =>
    intro hcontra
    cases hr : env.read p with
    | error e => simp [processInputs, hr] at hcontra
    | ok b =>
      cases hd : env.deserialize b with
      | error e => simp [processInputs, hr, hd] at hcontra
      | ok pr =>
        obtain ⟨r, o⟩ := pr
        rw [processInputs_cons_ok env rest (some a) hr hd] at hcontra
        exact ih _ hcontra

theorem processInputs_fail {O E : Type} (env : Env O E) (pre : List Path) (p : Path)
    (post : List Path) (hpre : ∀ q ∈ pre, readsOk env q) (hp : fileFails env p) :
    ∀ acc, ∃ r, processInputs env (pre ++ p :: post) acc = .error r ∧
      processInputs env (pre ++ [p]) acc = .error r ∧
      ((∃ e, r = .readFail p e) ∨ (∃ e, r = .deserializeFail p e)) := by
  induction pre with
  | nil =>
    intro acc
    rcases hp with ⟨e, he⟩ | ⟨b, e, hb, he⟩
    · exact ⟨.readFail p e, by simp [processInputs, he], by simp [processInputs, he],
        .inl ⟨e, rfl⟩⟩
    · exact ⟨.deserializeFail p e, by simp [processInputs, hb, he],
        by simp [processInputs, hb, he], .inr ⟨e, rfl⟩⟩
  | cons q pre ih =>
    intro acc
    obtain ⟨b, r, o, hb, hd⟩ := hpre q (List.mem_cons_self q pre)
    have hpre' : ∀ x ∈ pre, readsOk env x := fun x hx => hpre x (List.mem_cons_of_mem q hx)
    obtain ⟨res, h1, h2, h3⟩ := ih hpre' (stepAcc env acc o)
    refine ⟨res, ?_, ?_, h3⟩
    · rw [List.cons_append, processInputs_cons_ok env _ _ hb hd]; exact h1
    · rw [List.cons_append, processInputs_cons_ok env _ _ hb hd]; exact h2

theorem linkCommand_cons_eq {O E : Type} (env : Env O E) (p : Path) (ps : List Path)
    (out : Option Path) :
    linkCommand env (p :: ps) out =
      (match processInputs env (p :: ps) none with
       | .error r => r
       | .ok none => .noInput
       | .ok (some objectFile) =>
         match env.tryFrom objectFile with
         | .ok executable =>
           .write (out.getD (setExtension p "x")) (env.serializeExe executable)
         | .error e => .linkFail e) := by
  cases out <;> rfl

theorem linkCommand_eq_of_processInputs_error {O E : Type} (env : Env O E)
    (p : Path) (ps : List Path) (out : Option Path) (r : LinkOutcome)
    (h : processInputs env (p :: ps) none = .error r) :
    linkCommand env (p :: ps) out = r := by
  rw [linkCommand_cons_eq, h]

theorem processInputs_error_shape {O E : Type} (env : Env O E) (ps : List Path)
    (acc : Option O) (r : LinkOutcome) (h : processInputs env ps acc = .error r) :
    (∃ p e, r = .readFail p e) ∨ (∃ p e, r = .deserializeFail p e) := by
  induction ps generalizing acc with
  | nil => simp [processInputs] at h
  | cons p rest ih =>
    cases hr : env.read p with
    | error e =>
      simp [processInputs, hr] at h
      exact .inl ⟨p, e, h.symm⟩
    | ok b =>
      cases hd : env.deserialize b with
      | error e =>
        simp [processInputs, hr, hd] at h
        exact .inr ⟨p, e, h.symm⟩
      | ok pr =>
        obtain ⟨r0, o⟩ := pr
        rw [processInputs_cons_ok env rest acc hr hd] at h
        exact ih _ h

theorem processInputs_cons_not_none {O E : Type} (env : Env O E) (p : Path)
    (ps : List Path) (acc : Option O) : processInputs env (p :: ps) acc ≠ .ok none := by
  intro h
  cases hr : env.read p with
  | error e => simp [processInputs, hr] at h
  | ok b =>
    cases hd : env.deserialize b with
    | error e => simp [processInputs, hr, hd] at h
    | ok pr =>
      obtain ⟨r0, o⟩ := pr
      rw [processInputs_cons_ok env ps acc hr hd] at h
      cases acc <;> exact processInputs_some_not_none env ps _ h

theorem processInputs_merge_err_invariant {O E : Type} (env : Env O E)
    (f : O → O → Option String) (ps : List Path) :
    ∀ acc, processInputs { env with merge := fun a b => ((env.merge a b).1, f a b) } ps acc =
      processInputs env ps acc := by
  induction ps with
  | nil => intro acc; rfl
  | cons p rest ih =>
    intro acc
    cases hr : env.read p with
    | error e => simp [processInputs, hr]
    | ok b =>
      cases hd : env.deserialize b with
      | error e => simp [processInputs, hr, hd]
      | ok pr => cases acc <;> simp [processInputs, hr, hd, ih]

theorem except_map_snd_error {O : Type} {x : Except String (Bytes × O)} {e : String}
    (h : x.map Prod.snd = .error e) : x = .error e := by
  cases x with
  | error e2 => simp [Except.map] at h; rw [h]
  | ok pr => simp [Except.map] at h

theorem except_map_snd_ok {O : Type} {x : Except String (Bytes × O)} {o : O}
    (h : x.map Prod.snd = .ok o) : ∃ r, x = .ok (r, o) := by
  cases x with
  | error e2 => simp [Except.map] at h
  | ok pr =>
    simp [Except.map] at h
    exact ⟨pr.1, by cases pr; simp_all⟩

theorem processInputs_deserialize_snd_invariant {O E : Type} (env : Env O E)
    (d2 : Bytes → Except String (Bytes × O))
    (h : ∀ b, (d2 b).map Prod.snd = (env.deserialize b).map Prod.snd) (ps : List Path) :
    ∀ acc, processInputs { env with deserialize := d2 } ps acc = processInputs env ps acc := by
  induction ps with
  | nil => intro acc; rfl
  | cons p rest ih =>
    intro acc
    cases hr : env.read p with
    | error e => simp [processInputs, hr]
    | ok b =>
      cases hd : env.deserialize b with
      | error e =>
        have hd2 : d2 b = .error e := except_map_snd_error (by rw [h b, hd]; rfl)
        simp [processInputs, hr, hd, hd2]
      | ok pr =>
        obtain ⟨r0, o⟩ := pr
        obtain ⟨r2, hd2⟩ : ∃ r2, d2 b = .ok (r2, o) :=
          except_map_snd_ok (by rw [h b, hd]; rfl)
        rw [processInputs_cons_ok env rest acc hr hd,
          processInputs_cons_ok { env with deserialize := d2 } rest acc hr hd2]
        exact ih _

/-- C1: with any target other than `stack`, `assemble_file` fails with an
error naming the unsupported target, for every content the input file may
hold, and its result does not depend on the parser at all: the target check is
a configuration check performed before any parsing. -/
theorem c1_unsupported_target_is_config_check {O E : Type} (env : Env O E)
    (p : Path) (t : String) (hne : t ≠ "stack") :
    (∀ s, env.readToString p = .ok s →
      assemble_file env p t = .error ("Unsupported target type: " ++ t)) ∧
    (∀ parse2, assemble_file { env with stackParse := parse2 } p t =
      assemble_file env p t) := by
  constructor
  · intro s hs
    simp [assemble_file, hs, hne]
  · intro parse2
    cases h : env.readToString p <;> simp [assemble_file, h, hne]

/-- Witness for C1 at a concrete environment and target `riscv`. -/
theorem c1_witness :
    assemble_file demoEnv "prog.s" "riscv" = .error ("Unsupported target type: " ++ "riscv") :=
  (c1_unsupported_target_is_config_check demoEnv "prog.s" "riscv" (by decide)).1 "push 1" rfl

/-- C7: with target `stack`, `assemble_file` returns exactly the stack
parser's result on the file's contents; on a parse failure the as command
reports the parser's own message and writes nothing. -/
theorem c7_stack_target_returns_parse_result {O E : Type} (env : Env O E) (p : Path)
    (s : String) (out : Option Path) (hs : env.readToString p = .ok s) :
    assemble_file env p "stack" = env.stackParse s ∧
    (∀ e, env.stackParse s = .error e →
      asCommand env p out "stack" = .failure e ∧
      ∀ q bs, asCommand env p out "stack" ≠ .write q bs) := by
  have h1 : assemble_file env p "stack" = env.stackParse s := by
    simp [assemble_file, hs]
  refine ⟨h1, fun e he => ?_⟩
  have h2 : asCommand env p out "stack" = .failure e := by
    simp [asCommand, h1, he]
  exact ⟨h2, fun q bs hc => by rw [h2] at hc; exact AsOutcome.noConfusion hc⟩

/-- Witness for C7 at a concrete environment whose parser fails. -/
theorem c7_witness :
    assemble_file demoParseFailEnv "prog.s" "stack" = .error "unknown mnemonic at line 1" ∧
    asCommand demoParseFailEnv "prog.s" none "stack" = .failure "unknown mnemonic at line 1" := by
  have h := c7_stack_target_returns_parse_result demoParseFailEnv "prog.s" "push 1" none rfl
  exact ⟨h.1, (h.2 "unknown mnemonic at line 1" rfl).1⟩

/-- C9: with an empty input list and no explicit output path, the link command
hits the `input[0]` index panic while computing the default output path,
before the loop and before the `No input files provided` diagnostic; that
diagnostic is reachable only when an output path was supplied explicitly. -/
theorem c9_empty_input_panics_before_diagnostic :
    (∀ (O E : Type) (env : Env O E), linkCommand env [] none = .indexPanic) ∧
    (∀ (O E : Type) (env : Env O E) (q : Path), linkCommand env [] (some q) = .noInput) ∧
    (∀ (O E : Type) (env : Env O E) (input : List Path) (out : Option Path),
      linkCommand env input out = .noInput → ∃ q, out = some q) := by
  refine ⟨fun O E env => rfl, fun O E env q => rfl, fun O E env input out h => ?_⟩
  cases out with
  | some q => exact ⟨q, rfl⟩
  | none =>
    exfalso
    cases input with
    | nil => simp [linkCommand] at h
    | cons p ps =>
      rw [linkCommand_cons_eq] at h
      cases hpi : processInputs env (p :: ps) none with
      | error r =>
        rw [hpi] at h
        rcases processInputs_error_shape env (p :: ps) none r hpi with ⟨p2, e, he⟩ | ⟨p2, e, he⟩ <;>
          subst he <;> simp at h
      | ok acc =>
        cases acc with
        | none => exact processInputs_cons_not_none env p ps none hpi
        | some m =>
          rw [hpi] at h
          cases ht : env.tryFrom m with
          | ok executable => simp [ht] at h
          | error e => simp [ht] at h

/-- Witness for C9: the panic case, the diagnostic case, and an application of
the only-with-explicit-output implication at a concrete instance. -/
theorem c9_witness :
    linkCommand demoEnv [] none = .indexPanic ∧
    linkCommand demoEnv [] (some "out.x") = .noInput ∧
    ∃ q, (some "out.x" : Option Path) = some q :=
  ⟨c9_empty_input_panics_before_diagnostic.1 Nat Nat demoEnv,
   c9_empty_input_panics_before_diagnostic.2.1 Nat Nat demoEnv "out.x",
   c9_empty_input_panics_before_diagnostic.2.2 Nat Nat demoEnv [] (some "out.x") rfl⟩

/-- C10: the link command uses only the object-file component of
`deserialize`; the remaining-bytes component is discarded without being
checked for emptiness, so two deserializers agreeing on the parsed object file
(but with arbitrary leftover bytes) give identical outcomes on every input. -/
theorem c10_trailing_bytes_silently_ignored {O E : Type} (env : Env O E)
    (d2 : Bytes → Except String (Bytes × O))
    (h : ∀ b, (d2 b).map Prod.snd = (env.deserialize b).map Prod.snd)
    (input : List Path) (out : Option Path) :
    linkCommand { env with deserialize := d2 } input out = linkCommand env input out := by
  cases input with
  | nil => cases out <;> rfl
  | cons p ps =>
    rw [linkCommand_cons_eq, linkCommand_cons_eq,
      processInputs_deserialize_snd_invariant env d2 h (p :: ps) none]

/-- Witness for C10: a deserializer reporting leftover bytes `[9]` instead of
`[]` yields the same outcome. -/
theorem c10_witness :
    linkCommand { demoEnv with deserialize := fun b => .ok ([9], b.length) } ["a.o"]
        (some "out.x") =
      linkCommand demoEnv ["a.o"] (some "out.x") :=
  c10_trailing_bytes_silently_ignored demoEnv (fun b => .ok ([9], b.length))
    (fun _ => rfl) ["a.o"] (some "out.x")

/-- C2: the CLI discards the value returned by `merge`, so a
duplicate-definition `MergeError` is never reported: the link outcome is
entirely independent of the error component of `merge`, and on two inputs
whose merge reports `DuplicateDefinition(foo)` the command still builds and
writes an executable instead of failing. -/
theorem c2_merge_error_silently_dropped :
    (∀ (O E : Type) (env : Env O E) (f : O → O → Option String) (input : List Path)
      (out : Option Path),
      linkCommand { env with merge := fun a b => ((env.merge a b).1, f a b) } input out =
        linkCommand env input out) ∧
    linkCommand demoDupEnv ["a.o", "b.o"] (some "out.x") = .write "out.x" [3] := by
  constructor
  · intro O E env f input out
    cases input with
    | nil => cases out <;> rfl
    | cons p ps =>
      rw [linkCommand_cons_eq, linkCommand_cons_eq,
        processInputs_merge_err_invariant env f (p :: ps) none]
  · rfl

/-- C3: if every file before `p` reads and deserializes successfully and `p`
fails to read or to deserialize, the link command returns early reporting
`p`'s failure: the outcome is the same as on the input truncated right after
`p` (later files are never processed), it names `p`, and nothing is written. -/
theorem c3_first_failure_aborts_link {O E : Type} (env : Env O E) (pre : List Path)
    (p : Path) (post : List Path) (out : Option Path)
    (hpre : ∀ q ∈ pre, readsOk env q) (hp : fileFails env p) :
    linkCommand env (pre ++ p :: post) out = linkCommand env (pre ++ [p]) out ∧
    ((∃ e, linkCommand env (pre ++ p :: post) out = .readFail p e) ∨
     (∃ e, linkCommand env (pre ++ p :: post) out = .deserializeFail p e)) ∧
    (∀ q bs, linkCommand env (pre ++ p :: post) out ≠ .write q bs) := by
  obtain ⟨r, h1, h2, h3⟩ := processInputs_fail env pre p post hpre hp none
  have ha : linkCommand env (pre ++ p :: post) out = r := by
    cases pre with
    | nil => exact linkCommand_eq_of_processInputs_error env p post out r h1
    | cons q pre2 =>
      exact linkCommand_eq_of_processInputs_error env q (pre2 ++ p :: post) out r h1
  have hb : linkCommand env (pre ++ [p]) out = r := by
    cases pre with
    | nil => exact linkCommand_eq_of_processInputs_error env p [] out r h2
    | cons q pre2 =>
      exact linkCommand_eq_of_processInputs_error env q (pre2 ++ [p]) out r h2
  refine ⟨ha.trans hb.symm, ?_, ?_⟩
  · rcases h3 with ⟨e, he⟩ | ⟨e, he⟩
    · exact .inl ⟨e, ha.trans he⟩
    · exact .inr ⟨e, ha.trans he⟩
  · intro q bs hc
    rw [ha] at hc
    rcases h3 with ⟨e, he⟩ | ⟨e, he⟩ <;> subst he <;> simp at hc

/-- Witness for C3 at an environment where reading `bad` fails. -/
theorem c3_witness :
    linkCommand demoReadFailEnv ["good.o", "bad", "later.o"] (some "out.x") =
      linkCommand demoReadFailEnv ["good.o", "bad"] (some "out.x") := by
  have h := c3_first_failure_aborts_link demoReadFailEnv ["good.o"] "bad" ["later.o"]
    (some "out.x")
    (by
      intro q hq
      simp only [List.mem_singleton] at hq
      subst hq
      exact ⟨[3, 1], [], 2, by simp [demoReadFailEnv, demoEnv], rfl⟩)
    (.inl ⟨"os error 2", by simp [demoReadFailEnv, demoEnv]⟩)
  exact h.1

/-- C4: on inputs that all read and deserialize successfully (to `o :: os`),
the link command combines them by a left-associative fold in command-line
order — the first object file is the accumulator and each later one is merged
into it — and then builds and writes the executable from that fold. -/
theorem c4_link_merges_by_left_fold {O E : Type} (env : Env O E) (p : Path)
    (ps : List Path) (o : O) (os : List O) (q : Path) (hp : deserializesTo env p o)
    (hps : List.Forall₂ (deserializesTo env) ps os) :
    linkCommand env (p :: ps) (some q) =
      (match env.tryFrom (os.foldl (fun x y => (env.merge x y).1) o) with
       | .ok executable => .write q (env.serializeExe executable)
       | .error e => .linkFail e) := by
  obtain ⟨b, r, hb, hd⟩ := hp
  rw [linkCommand_cons_eq, processInputs_cons_ok env ps none hb hd]
  rw [show stepAcc env none o = some o from rfl, processInputs_fold env hps o]
  cases ht : env.tryFrom (os.foldl (fun x y => (env.merge x y).1) o) <;> simp [ht]

/-- Witness for C4 on two concrete inputs. -/
theorem c4_witness :
    linkCommand demoEnv ["a.o", "b.o"] (some "out.x") = .write "out.x" [5] := by
  have h := c4_link_merges_by_left_fold demoEnv "a.o" ["b.o"] 2 [2] "out.x"
    ⟨[3, 1], [], rfl, rfl⟩ (List.Forall₂.cons ⟨[3, 1], [], rfl, rfl⟩ List.Forall₂.nil)
  exact h

/-- C5: whenever the merge loop produced an object file and building the
executable from it fails with a link error, the link command reports that
error and writes no output file. -/
theorem c5_link_failure_writes_nothing {O E : Type} (env : Env O E) (p : Path)
    (ps : List Path) (m : O) (msg : String) (q : Path)
    (hm : processInputs env (p :: ps) none = .ok (some m))
    (hfail : env.tryFrom m = .error msg) :
    linkCommand env (p :: ps) (some q) = .linkFail msg ∧
    ∀ q2 bs, linkCommand env (p :: ps) (some q) ≠ .write q2 bs := by
  have h : linkCommand env (p :: ps) (some q) = .linkFail msg := by
    rw [linkCommand_cons_eq, hm]
    simp [hfail]
  exact ⟨h, fun q2 bs hc => by rw [h] at hc; exact LinkOutcome.noConfusion hc⟩

/-- Witness for C5 at an environment whose executable building fails. -/
theorem c5_witness :
    linkCommand demoLinkFailEnv ["a.o"] (some "out.x") = .linkFail "UndefinedSymbol(done)" :=
  (c5_link_failure_writes_nothing demoLinkFailEnv "a.o" [] 2 "UndefinedSymbol(done)"
    "out.x" rfl rfl).1

/-- C6: whatever either command writes is exactly a serialization: if the as
command writes bytes, they are the serialization of the assembled object file,
and if the link command writes bytes, they are the serialization of the
executable built from the merged object file. -/
theorem c6_written_bytes_are_serializations {O E : Type} (env : Env O E)
    (i : Path) (outp : Option Path) (t : String) (input : List Path)
    (out : Option Path) (q1 : Path) (bs1 : Bytes) (q2 : Path) (bs2 : Bytes) :
    (asCommand env i outp t = .write q1 bs1 →
      ∃ o, assemble_file env i t = .ok o ∧ bs1 = env.serializeObj o) ∧
    (linkCommand env input out = .write q2 bs2 →
      ∃ m e, processInputs env input none = .ok (some m) ∧
        env.tryFrom m = .ok e ∧ bs2 = env.serializeExe e) := by
  constructor
  · intro h
    cases ha : assemble_file env i t with
    | error e => simp [asCommand, ha] at h
    | ok o =>
      simp [asCommand, ha] at h
      exact ⟨o, rfl, h.2.symm⟩
  · intro h
    cases input with
    | nil =>
      cases out with
      | none => simp [linkCommand] at h
      | some q3 => simp [linkCommand, processInputs] at h
    | cons p ps =>
      rw [linkCommand_cons_eq] at h
      cases hpi : processInputs env (p :: ps) none with
      | error r =>
        rw [hpi] at h
        rcases processInputs_error_shape env (p :: ps) none r hpi with ⟨p2, e, he⟩ | ⟨p2, e, he⟩ <;>
          subst he <;> simp at h
      | ok acc =>
        cases acc with
        | none => exact absurd hpi (processInputs_cons_not_none env p ps none)
        | some m =>
          rw [hpi] at h
          cases ht : env.tryFrom m with
          | error e => simp [ht] at h
          | ok executable =>
            simp [ht] at h
            exact ⟨m, executable, rfl, ht, h.2.symm⟩

/-- Witness for C6: both implications applied at the concrete environment. -/
theorem c6_witness :
    (∃ o, assemble_file demoEnv "prog.s" "stack" = .ok o ∧ [6] = demoEnv.serializeObj o) ∧
    (∃ m e, processInputs demoEnv ["a.o"] none = .ok (some m) ∧
      demoEnv.tryFrom m = .ok e ∧ [3] = demoEnv.serializeExe e) := by
  have h := c6_written_bytes_are_serializations demoEnv "prog.s" none "stack" ["a.o"]
    (some "out.x") "prog.o" [6] "out.x" [3]
  exact ⟨h.1 rfl, h.2 rfl⟩

/-- C8: with exactly one input object file, no merge happens: the outcome is
determined by `tryFrom` on the single deserialized object file, and is
independent of the merge operation entirely. -/
theorem c8_single_input_skips_merge {O E : Type} (env : Env O E) (p : Path) (q : Path)
    (o : O) (hp : deserializesTo env p o) :
    (linkCommand env [p] (some q) =
      (match env.tryFrom o with
       | .ok executable => .write q (env.serializeExe executable)
       | .error e => .linkFail e)) ∧
    (∀ m2 : O → O → O × Option String,
      linkCommand { env with merge := m2 } [p] (some q) = linkCommand env [p] (some q)) := by
  obtain ⟨b, r, hb, hd⟩ := hp
  have hrun : processInputs env [p] (none : Option O) = .ok (some o) := by
    rw [processInputs_cons_ok env [] (none : Option O) hb hd]
    rfl
  constructor
  · rw [linkCommand_cons_eq, hrun]
    cases ht : env.tryFrom o <;> simp [ht]
  · intro m2
    have hrun2 : processInputs { env with merge := m2 } [p] (none : Option O) = .ok (some o) := by
      rw [processInputs_cons_ok { env with merge := m2 } [] (none : Option O) hb hd]
      rfl
    rw [linkCommand_cons_eq, linkCommand_cons_eq, hrun, hrun2]

/-- Witness for C8 on one concrete input. -/
theorem c8_witness :
    linkCommand demoEnv ["a.o"] (some "out.x") = .write "out.x" [3] :=
  (c8_single_input_skips_merge demoEnv "a.o" "out.x" 2 ⟨[3, 1], [], rfl, rfl⟩).1

end MonistodeCli
